import Mathlib

/-!
Shallow embedding of `scripts/add_tags.py`: a keyword-based content-warning
tagger for card-text CSV tables.  Strings are modelled as Lean `String`s
(the data in play is ASCII); Python's compiled regexes are modelled by
executable matchers over the list of characters of the lowercased text,
which is exactly what `re.IGNORECASE` search amounts to on ASCII input.
`process_file`'s pure table transformation (everything between reading the
CSV rows and writing them back) is embedded as `process_rows`; the file
I/O and the printed diagnostics are out of scope.
-/

namespace CAH

/-- ASCII whitespace, as matched by Python's `\s` and stripped by `str.strip()`. -/
def isSpaceChar (c : Char) : Bool :=
  c = ' ' || c = '\t' || c = '\n' || c = '\r' || c = '\x0b' || c = '\x0c'

/-- Python regex word character `\w`, restricted to ASCII: letters, digits, underscore.
Word-boundary `\b` is defined from this class. -/
def isWordChar (c : Char) : Bool :=
  c.isAlphanum || c = '_'

/-- `str.strip()`: drop leading and trailing whitespace. -/
def pyStrip (s : String) : String :=
  String.mk (((s.data.dropWhile isSpaceChar).reverse.dropWhile isSpaceChar).reverse)

/-- The characters of the text lowercased: on ASCII this is exactly what
matching with `re.IGNORECASE` amounts to (lowercase both sides). -/
def lowerChars (s : String) : List Char :=
  s.data.map Char.toLower

/-- Whether the character standing just before the current position (`none` at
the start of the text) is a word character. -/
def isWordOpt (prev : Option Char) : Bool :=
  match prev with
  | none => false
  | some c => isWordChar c

/-- Whether the character at the current position (none at the end of the text)
is a word character. -/
def isWordHead (s : List Char) : Bool :=
  match s with
  | [] => false
  | c :: _ => isWordChar c

/-- `\b` holds before the start of a word: the previous character (if any) is
not a word character. -/
def leftBoundary (prev : Option Char) : Bool :=
  !isWordOpt prev

/-- `\b` holds after the end of a word: the next character (if any) is not a
word character. -/
def rightBoundary (s : List Char) : Bool :=
  !isWordHead s

/-! ### The keyword matcher

`_word_regex(word)` compiles `\b<re.escape(word)>\b` with `re.IGNORECASE`:
the keyword's characters literally (keywords hold only letters and spaces),
case-insensitively, with a word boundary on each side.  Every keyword starts
and ends with a word character, so the two `\b` amount to: the neighbouring
characters, when they exist, are not word characters. -/

/-- The compiled keyword regex matches at the current position: the (lowercased)
pattern is a literal prefix of the remaining text and both boundaries hold. -/
def matchWordAt (pat : List Char) (prev : Option Char) (s : List Char) : Bool :=
  leftBoundary prev && List.isPrefixOf pat s && rightBoundary (s.drop pat.length)

/-- `re.search` for the compiled keyword regex: try every position, threading
the previous character for the left boundary. -/
def searchWordAux (pat : List Char) : Option Char → List Char → Bool
  | prev, [] => matchWordAt pat prev []
  | prev, c :: rest => matchWordAt pat prev (c :: rest) || searchWordAux pat (some c) rest

/-- `_word_regex(word).search(text) is not None`: case-insensitive whole-word
(whole-phrase) search. -/
def searchWord (word text : String) : Bool :=
  searchWordAux (lowerChars word) none (lowerChars text)

/-! ### The exclusion-pattern matcher

The exclusion regexes use only literal characters, `\s*`, `\s+`, `\b` and
alternation `|`, compiled with `re.IGNORECASE`.  A pattern is embedded as a
list of alternative branches, each branch a list of tokens. -/

/-- One token of an exclusion regex branch. -/
inductive PTok
  | lit (c : Char)
  | ws0
  | ws1
  | wb
deriving DecidableEq

/-- `\b`: exactly one side of the current position is a word character. -/
def atWordBoundary (prev : Option Char) (s : List Char) : Bool :=
  isWordOpt prev != isWordHead s

/-- All the ways a `\s*` can consume a whitespace prefix of the text: the
(previous character, remaining text) pairs after consuming 0, 1, 2, …
leading whitespace characters. -/
def wsSplits (prev : Option Char) : List Char → List (Option Char × List Char)
  | [] => [(prev, [])]
  | c :: rest => (prev, c :: rest) :: (if isSpaceChar c then wsSplits (some c) rest else [])

/-- A branch matches starting at the current position (existential,
backtracking semantics — equivalent to Python's for a boolean search).
`lit c` consumes one equal character; `ws0` (`\s*`) consumes any run of
whitespace; `ws1` (`\s+`) consumes at least one; `wb` (`\b`) consumes
nothing and checks the boundary. -/
def matchToks : List PTok → Option Char → List Char → Bool
  | [], _, _ => true
  | PTok.lit c :: ps, _, s =>
      match s with
      | [] => false
      | d :: rest => d = c && matchToks ps (some d) rest
  | PTok.ws0 :: ps, prev, s =>
      (wsSplits prev s).any fun pr => matchToks ps pr.1 pr.2
  | PTok.ws1 :: ps, _, s =>
      match s with
      | [] => false
      | d :: rest =>
          isSpaceChar d && ((wsSplits (some d) rest).any fun pr => matchToks ps pr.1 pr.2)
  | PTok.wb :: ps, prev, s => atWordBoundary prev s && matchToks ps prev s

/-- `re.search` over an alternation of branches: try every branch at every
position. -/
def searchToksAux (branches : List (List PTok)) : Option Char → List Char → Bool
  | prev, [] => branches.any (fun b => matchToks b prev [])
  | prev, c :: rest =>
      branches.any (fun b => matchToks b prev (c :: rest)) ||
        searchToksAux branches (some c) rest

/-- `pattern.search(text) is not None` for a compiled exclusion pattern
(case-insensitive: both sides are lowercased, which is `re.IGNORECASE` on
ASCII). -/
def reSearch (branches : List (List PTok)) (text : String) : Bool :=
  searchToksAux branches none (lowerChars text)

/-- Literal characters of a branch. -/
def litToks (s : String) : List PTok :=
  (lowerChars s).map PTok.lit

/-- `a\s*b`. -/
def wsStar (a b : String) : List PTok :=
  litToks a ++ [PTok.ws0] ++ litToks b

/-- `a\s+b`. -/
def wsPlus2 (a b : String) : List PTok :=
  litToks a ++ [PTok.ws1] ++ litToks b

/-- `a\s+b\s+c`. -/
def wsPlus3 (a b c : String) : List PTok :=
  litToks a ++ [PTok.ws1] ++ litToks b ++ [PTok.ws1] ++ litToks c

/-! ### The rule tables, transcribed from `add_tags.py` -/

def SEXUALLY_EXPLICIT_KEYWORDS : List String :=
  ["sex", "cum", "masturbate", "masturbation", "porn", "orgasm", "erection",
   "vagina", "penis", "handjob", "dildo", "vibrator", "horny", "naked", "nude",
   "dick", "cock", "pussy", "virginity", "virgin", "blowjob", "blow job",
   "sex position", "go down on", "anal sex", "oral sex",
   "ass", "butt"]

/-- `chicken\s*breast|breast\s*stroke|oral\s*exam|oral\s*presentation|oral\s*history` -/
def SEXUALLY_EXPLICIT_EXCLUDE : List (List PTok) :=
  [wsStar "chicken" "breast", wsStar "breast" "stroke", wsStar "oral" "exam",
   wsStar "oral" "presentation", wsStar "oral" "history"]

def SEXIST_KEYWORDS : List String :=
  ["bitch", "slut", "whore", "cunt"]

def RACIST_KEYWORDS : List String :=
  ["slavery", "white man", "black man", "black woman", "aboriginal",
   "tribe", "mexican", "racist", "racism"]

/-- `primitive\s+version|indian\s+food|indian\s+cuisine|indian\s+summer|asian\s+cuisine|asian\s+food|tribe\s+called` -/
def RACIST_EXCLUDE : List (List PTok) :=
  [wsPlus2 "primitive" "version", wsPlus2 "indian" "food", wsPlus2 "indian" "cuisine",
   wsPlus2 "indian" "summer", wsPlus2 "asian" "cuisine", wsPlus2 "asian" "food",
   wsPlus2 "tribe" "called"]

def PROFANITY_KEYWORDS : List String :=
  ["shit", "fuck", "fucking", "fucked", "damn", "hell", "ass", "bastard", "crap"]

def VIOLENCE_KEYWORDS : List String :=
  ["kill", "killing", "murder", "murdered", "death", "blood", "bloody", "torture",
   "rape", "raped", "abuse", "abused", "violence", "weapon", "weapons", "gun", "guns",
   "knife", "bomb", "bombs", "stab", "stabbing", "shoot", "shooting"]

/-- `dead\s+tired|dead\s+end|buzzkill|overkill|kill\s+two\s+birds|glue\s+gun|nail\s+gun|blood\s+orange|blood\s+type` -/
def VIOLENCE_EXCLUDE : List (List PTok) :=
  [wsPlus2 "dead" "tired", wsPlus2 "dead" "end", litToks "buzzkill", litToks "overkill",
   wsPlus3 "kill" "two" "birds", wsPlus2 "glue" "gun", wsPlus2 "nail" "gun",
   wsPlus2 "blood" "orange", wsPlus2 "blood" "type"]

def DRUGS_KEYWORDS : List String :=
  ["cocaine", "heroin", "meth", "marijuana", "lsd", "cigarette", "cigarettes",
   "alcohol", "drunk", "tripping on acid", "getting high", "getting drunk",
   "drugs", "overdose"]

/-- `weed\s+killer|weeding|drug\s+store|pharmacy|vitamin\s+pills|sleeping\s+pills\b|pain\s+relief` -/
def DRUGS_EXCLUDE : List (List PTok) :=
  [wsPlus2 "weed" "killer", litToks "weeding", wsPlus2 "drug" "store", litToks "pharmacy",
   wsPlus2 "vitamin" "pills", wsPlus2 "sleeping" "pills" ++ [PTok.wb],
   wsPlus2 "pain" "relief"]

/-- The six categories `check_tags` tests, in the order of its six blocks. -/
inductive Category
  | sexuallyExplicit
  | sexist
  | racist
  | profanity
  | violence
  | drugs
deriving DecidableEq

def ALL_CATEGORIES : List Category :=
  [Category.sexuallyExplicit, Category.sexist, Category.racist,
   Category.profanity, Category.violence, Category.drugs]

/-- The tag string each block appends. -/
def categoryName : Category → String
  | Category.sexuallyExplicit => "Sexually Explicit"
  | Category.sexist => "Sexist"
  | Category.racist => "Racist"
  | Category.profanity => "Profanity"
  | Category.violence => "Violence"
  | Category.drugs => "Drugs"

/-- The keyword list each block scans. -/
def categoryKeywords : Category → List String
  | Category.sexuallyExplicit => SEXUALLY_EXPLICIT_KEYWORDS
  | Category.sexist => SEXIST_KEYWORDS
  | Category.racist => RACIST_KEYWORDS
  | Category.profanity => PROFANITY_KEYWORDS
  | Category.violence => VIOLENCE_KEYWORDS
  | Category.drugs => DRUGS_KEYWORDS

/-- The exclusion pattern guarding each block; `none` for the two blocks
(`Sexist`, `Profanity`) that have no exclusion guard in the source. -/
def categoryExclude : Category → Option (List (List PTok))
  | Category.sexuallyExplicit => some SEXUALLY_EXPLICIT_EXCLUDE
  | Category.sexist => none
  | Category.racist => some RACIST_EXCLUDE
  | Category.profanity => none
  | Category.violence => some VIOLENCE_EXCLUDE
  | Category.drugs => some DRUGS_EXCLUDE

/-- `any(p.search(text) for p in compiled)` — also the value of the
for-loop-with-break blocks, which append the tag iff some pattern hits. -/
def keywordHit (kws : List String) (text : String) : Bool :=
  kws.any (fun k => searchWord k text)

/-- `if not EXCLUDE.search(text):` — vacuously true for a block with no guard. -/
def excludeOk (c : Category) (text : String) : Bool :=
  match categoryExclude c with
  | some pats => !reSearch pats text
  | none => true

/-- One block of `check_tags`: the (zero- or one-element) list of tags it
appends for this text. -/
def tagSegment (c : Category) (text : String) : List String :=
  if excludeOk c text && keywordHit (categoryKeywords c) text then [categoryName c] else []

/-- `check_tags(text)`: empty for falsy or whitespace-only text, else the
concatenation of the six blocks' contributions in their fixed order. -/
def check_tags (text : String) : List String :=
  if text = "" ∨ pyStrip text = "" then []
  else (ALL_CATEGORIES.map (fun c => tagSegment c text)).flatten

def CONTENT_LEVEL_SEVERE : List String :=
  ["Sexually Explicit", "Sexist", "Racist", "Violence"]

def CONTENT_LEVEL_MEDIUM : List String :=
  ["Drugs"]

def CONTENT_LEVEL_MILD : List String :=
  ["Profanity"]

/-- `content_level(tags)`: a set intersection is nonempty iff some element of
`tags` is in the level's list. -/
def content_level (tags : List String) : String :=
  if tags.any (fun t => CONTENT_LEVEL_SEVERE.contains t) then "severe"
  else if tags.any (fun t => CONTENT_LEVEL_MEDIUM.contains t) then "medium"
  else if tags.any (fun t => CONTENT_LEVEL_MILD.contains t) then "mild"
  else "basic"

/-- The header rewrite (iteration `i == 0` of `process_file`'s loop):
`[row[0] if row else 'Card text', 'Level'] + (row[1:12] if len(row) > 1 else [''] * 10)[:10]`. -/
def process_header (row : List String) : List String :=
  [row.headD "Card text", "Level"] ++
    (if 1 < row.length then (row.drop 1).take 11 else List.replicate 10 "").take 10

/-- One data-row iteration of `process_file`'s loop: `none` when the row is
skipped (`if not row or not row[0]: continue`), else the output row
`[card_text, level] + (tags + [''] * (10 - len(tags)))[:10]`. -/
def process_row (row : List String) : Option (List String) :=
  match row with
  | [] => none
  | cardText :: _ =>
      if cardText = "" then none
      else
        some ([cardText, content_level (check_tags cardText)] ++
          ((check_tags cardText ++ List.replicate (10 - (check_tags cardText).length) "").take 10))

/-- The pure table transformation of `process_file`: row 0 becomes the
rewritten header, every later row is kept (transformed) or dropped. -/
def process_rows (rows : List (List String)) : List (List String) :=
  match rows with
  | [] => []
  | header :: rest => process_header header :: rest.filterMap process_row

/-- The six tag names in the fixed priority order of `check_tags`' blocks. -/
def TAG_PRIORITY : List String :=
  ["Sexually Explicit", "Sexist", "Racist", "Profanity", "Violence", "Drugs"]

/-- The character standing just before a position reached by skipping `pre`:
the last character of `pre` when there is one, else whatever stood before
`pre`. -/
def prevOf (prev : Option Char) (pre : List Char) : Option Char :=
  match pre.getLast? with
  | some c => some c
  | none => prev

/-! ### Helper lemmas -/

theorem categoryName_inj (a b : Category) (h : categoryName a = categoryName b) : a = b := by
  cases a <;> cases b <;> revert h <;> decide

theorem tagSegment_eq_nil_or (c : Category) (text : String) :
    tagSegment c text = [] ∨ tagSegment c text = [categoryName c] := by
  unfold tagSegment
  split
  · exact Or.inr rfl
  · exact Or.inl rfl

theorem flatten_segments_sublist (cs : List Category) (text : String) :
    ((cs.map (fun c => tagSegment c text)).flatten).Sublist (cs.map categoryName) := by
  induction cs with
  | nil => simp
  | cons c cs ih =>
    simp only [List.map_cons, List.flatten_cons]
    have hseg : (tagSegment c text).Sublist [categoryName c] := by
      rcases tagSegment_eq_nil_or c text with h | h <;> simp [h]
    exact hseg.append ih

theorem check_tags_sublist (text : String) : (check_tags text).Sublist TAG_PRIORITY := by
  unfold check_tags
  split
  · simp
  · have h := flatten_segments_sublist ALL_CATEGORIES text
    have : ALL_CATEGORIES.map categoryName = TAG_PRIORITY := by decide
    rwa [this] at h

theorem mem_check_tags (text : String) (c : Category) :
    categoryName c ∈ check_tags text ↔
      ¬(text = "" ∨ pyStrip text = "") ∧ tagSegment c text = [categoryName c] := by
  unfold check_tags
  split
  · next hblank =>
    simp only [List.not_mem_nil, false_iff, not_and]
    intro h
    exact absurd hblank h
  · next hblank =>
    simp only [List.mem_flatten, List.mem_map]
    constructor
    · rintro ⟨l, ⟨c', _, rfl⟩, hmem⟩
      rcases tagSegment_eq_nil_or c' text with h | h
      · rw [h] at hmem
        exact absurd hmem (List.not_mem_nil _)
      · rw [h] at hmem
        have hname : categoryName c = categoryName c' := List.mem_singleton.mp hmem
        have : c = c' := categoryName_inj _ _ hname
        subst this
        exact ⟨hblank, h⟩
    · rintro ⟨-, hseg⟩
      refine ⟨tagSegment c text, ⟨c, ?_, rfl⟩, ?_⟩
      · cases c <;> decide
      · rw [hseg]
        exact List.mem_singleton.mpr rfl

theorem any_contains_iff (tags l : List String) :
    (tags.any fun t => l.contains t) = true ↔ ∃ t ∈ tags, t ∈ l := by
  simp [List.any_eq_true, List.contains, List.elem_iff]

theorem exists_mem_severe_iff (tags : List String) :
    (∃ t ∈ tags, t ∈ CONTENT_LEVEL_SEVERE) ↔
      ("Sexually Explicit" ∈ tags ∨ "Sexist" ∈ tags ∨ "Racist" ∈ tags ∨ "Violence" ∈ tags) := by
  constructor
  · rintro ⟨t, ht, hmem⟩
    rcases List.mem_cons.mp hmem with rfl | hmem
    · exact Or.inl ht
    rcases List.mem_cons.mp hmem with rfl | hmem
    · exact Or.inr (Or.inl ht)
    rcases List.mem_cons.mp hmem with rfl | hmem
    · exact Or.inr (Or.inr (Or.inl ht))
    rcases List.mem_cons.mp hmem with rfl | hmem
    · exact Or.inr (Or.inr (Or.inr ht))
    · exact absurd hmem (List.not_mem_nil _)
  · rintro (h | h | h | h) <;> exact ⟨_, h, by decide⟩

theorem exists_mem_singleton_iff (tags : List String) (a : String) :
    (∃ t ∈ tags, t ∈ [a]) ↔ a ∈ tags := by
  constructor
  · rintro ⟨t, ht, hmem⟩
    rcases List.mem_singleton.mp hmem with rfl
    exact ht
  · intro h
    exact ⟨a, h, List.mem_singleton.mpr rfl⟩

/-- `content_level` characterised by plain list membership. -/
theorem content_level_eq (tags : List String) :
    content_level tags =
      if "Sexually Explicit" ∈ tags ∨ "Sexist" ∈ tags ∨ "Racist" ∈ tags ∨ "Violence" ∈ tags
      then "severe"
      else if "Drugs" ∈ tags then "medium"
      else if "Profanity" ∈ tags then "mild"
      else "basic" := by
  unfold content_level
  simp only [any_contains_iff, exists_mem_severe_iff,
    show CONTENT_LEVEL_MEDIUM = ["Drugs"] from rfl,
    show CONTENT_LEVEL_MILD = ["Profanity"] from rfl,
    exists_mem_singleton_iff]

/-- A falsy-or-whitespace-only string really is all whitespace. -/
theorem pyStrip_eq_empty (text : String) (h : pyStrip text = "") :
    ∀ c ∈ text.data, isSpaceChar c = true := by
  unfold pyStrip at h
  have hdata : (((text.data.dropWhile isSpaceChar).reverse.dropWhile isSpaceChar).reverse) = [] :=
    congrArg String.data h
  rw [List.reverse_eq_nil_iff, List.dropWhile_eq_nil_iff] at hdata
  have hdrop : ∀ c ∈ text.data.dropWhile isSpaceChar, isSpaceChar c = true := by
    intro c hc
    exact hdata c (List.mem_reverse.mpr hc)
  intro c hc
  rw [← List.takeWhile_append_dropWhile isSpaceChar text.data] at hc
  rcases List.mem_append.mp hc with hc | hc
  · exact List.mem_takeWhile_imp hc
  · exact hdrop c hc

theorem isSpaceChar_toLower (c : Char) (h : isSpaceChar c = true) :
    isSpaceChar c.toLower = true := by
  have hc : ((((c = ' ' ∨ c = '\t') ∨ c = '\n') ∨ c = '\r') ∨ c = '\x0b') ∨ c = '\x0c' := by
    simpa [isSpaceChar] using h
  rcases hc with ((((rfl | rfl) | rfl) | rfl) | rfl) | rfl <;> decide

/-- A string whose lowercasing holds a non-whitespace character is neither
empty nor whitespace-only. -/
theorem not_blank_of_mem_lower (text : String) (c : Char) (hc : c ∈ lowerChars text)
    (hns : isSpaceChar c = false) : ¬(text = "" ∨ pyStrip text = "") := by
  rintro (rfl | hstrip)
  · exact absurd hc (List.not_mem_nil _)
  · obtain ⟨d, hd, rfl⟩ := List.mem_map.mp hc
    have := isSpaceChar_toLower d (pyStrip_eq_empty _ hstrip d hd)
    rw [hns] at this
    exact Bool.false_ne_true this

theorem prevOf_none (pre : List Char) : prevOf none pre = pre.getLast? := by
  unfold prevOf
  cases h : pre.getLast? <;> simp

theorem prevOf_cons (prev : Option Char) (c : Char) (pre : List Char) :
    prevOf prev (c :: pre) = prevOf (some c) pre := by
  cases pre with
  | nil => simp [prevOf, List.getLast?_singleton]
  | cons d pre' =>
    cases h : (d :: pre').getLast? with
    | none => exact absurd (List.getLast?_eq_none_iff.mp h) (List.cons_ne_nil d pre')
    | some e => simp [prevOf, List.getLast?_cons_cons, h]

/-- The anchored keyword regex matches at the current position iff the text
splits off the keyword here, with both boundaries holding. -/
theorem matchWordAt_iff (pat : List Char) (prev : Option Char) (s : List Char) :
    matchWordAt pat prev s = true ↔
      ∃ post, s = pat ++ post ∧ leftBoundary prev = true ∧ rightBoundary post = true := by
  unfold matchWordAt
  simp only [Bool.and_eq_true]
  constructor
  · rintro ⟨⟨hl, hp⟩, hr⟩
    obtain ⟨post, hpost⟩ := List.isPrefixOf_iff_prefix.mp hp
    refine ⟨post, hpost.symm, hl, ?_⟩
    rw [← hpost, List.drop_left] at hr
    exact hr
  · rintro ⟨post, rfl, hl, hr⟩
    refine ⟨⟨hl, List.isPrefixOf_iff_prefix.mpr ⟨post, rfl⟩⟩, ?_⟩
    rw [List.drop_left]
    exact hr

/-- The whole-word scan succeeds iff the keyword occurs somewhere: the text
splits as `pre ++ pat ++ post` with a word boundary on each side (the
character standing before the occurrence is `prevOf prev pre`). -/
theorem searchWordAux_iff (pat : List Char) (s : List Char) : ∀ prev : Option Char,
    searchWordAux pat prev s = true ↔
      ∃ pre post, s = pre ++ pat ++ post ∧
        leftBoundary (prevOf prev pre) = true ∧ rightBoundary post = true := by
  induction s with
  | nil =>
    intro prev
    rw [show searchWordAux pat prev [] = matchWordAt pat prev [] from rfl, matchWordAt_iff]
    constructor
    · rintro ⟨post, heq, hl, hr⟩
      obtain ⟨hpat, hpost⟩ := List.append_eq_nil.mp heq.symm
      exact ⟨[], post, by simp [heq], by simpa [prevOf] using hl, hr⟩
    · rintro ⟨pre, post, heq, hl, hr⟩
      obtain ⟨hpre, hrest⟩ := List.append_eq_nil.mp (List.append_assoc pre pat post ▸ heq.symm)
      subst hpre
      exact ⟨post, by simpa using heq, by simpa [prevOf] using hl, hr⟩
  | cons c rest ih =>
    intro prev
    rw [show searchWordAux pat prev (c :: rest) =
          (matchWordAt pat prev (c :: rest) || searchWordAux pat (some c) rest) from rfl]
    rw [Bool.or_eq_true, matchWordAt_iff, ih (some c)]
    constructor
    · rintro (⟨post, heq, hl, hr⟩ | ⟨pre, post, heq, hl, hr⟩)
      · exact ⟨[], post, by simpa using heq, by simpa [prevOf] using hl, hr⟩
      · refine ⟨c :: pre, post, by simp [heq], ?_, hr⟩
        rwa [prevOf_cons]
    · rintro ⟨pre, post, heq, hl, hr⟩
      cases pre with
      | nil =>
        exact Or.inl ⟨post, by simpa using heq, by simpa [prevOf] using hl, hr⟩
      | cons c' pre' =>
        obtain ⟨rfl, hrest⟩ : c' = c ∧ rest = pre' ++ pat ++ post := by
          have h2 := (List.cons.injEq c rest c' (pre' ++ pat ++ post)).mp (by simpa using heq)
          exact ⟨h2.1.symm, h2.2⟩
        refine Or.inr ⟨pre', post, hrest, ?_, hr⟩
        rwa [prevOf_cons] at hl

/-- `searchWord` characterised: a case-insensitive whole-word occurrence of
the keyword, with word boundaries on both sides. -/
theorem searchWord_iff (word text : String) :
    searchWord word text = true ↔
      ∃ pre post, lowerChars text = pre ++ lowerChars word ++ post ∧
        leftBoundary pre.getLast? = true ∧ rightBoundary post = true := by
  unfold searchWord
  rw [searchWordAux_iff]
  constructor
  · rintro ⟨pre, post, heq, hl, hr⟩
    exact ⟨pre, post, heq, by rwa [prevOf_none] at hl, hr⟩
  · rintro ⟨pre, post, heq, hl, hr⟩
    exact ⟨pre, post, heq, by rwa [prevOf_none], hr⟩

/-! ### The claims -/

/-- C1: the table transformer is NOT idempotent.  Evaluated at a concrete
table, the second pass changes the already-rewritten header row: the header
rewrite copies the input header's columns 1..11 as tag-column names, so on a
second pass the previously inserted `Level` column is re-copied as the first
tag-column name.  (The data rows are reproduced unchanged, being a pure
function of the first cell.) -/
theorem C1_not_idempotent :
    process_rows (process_rows [["Card text"], ["I love my dog"]]) ≠
      process_rows [["Card text"], ["I love my dog"]] := by
  decide

/-- C2: `content_level` is a pure total function of the matched-tag set:
"severe" when any of Sexually Explicit, Sexist, Racist, Violence is present,
otherwise "medium" on Drugs, otherwise "mild" on Profanity, otherwise
"basic"; it depends only on the set of tags; and a tag list holding a
severe-tier tag together with Profanity resolves to "severe", never "mild". -/
theorem C2_content_level_spec (tags : List String) :
    (content_level tags =
      if "Sexually Explicit" ∈ tags ∨ "Sexist" ∈ tags ∨ "Racist" ∈ tags ∨ "Violence" ∈ tags
      then "severe"
      else if "Drugs" ∈ tags then "medium"
      else if "Profanity" ∈ tags then "mild"
      else "basic") ∧
    (∀ tags' : List String, (∀ t, t ∈ tags ↔ t ∈ tags') →
      content_level tags = content_level tags') ∧
    (("Sexually Explicit" ∈ tags ∨ "Sexist" ∈ tags ∨ "Racist" ∈ tags ∨ "Violence" ∈ tags) →
      "Profanity" ∈ tags → content_level tags = "severe" ∧ content_level tags ≠ "mild") := by
  refine ⟨content_level_eq tags, ?_, ?_⟩
  · intro tags' hiff
    rw [content_level_eq, content_level_eq]
    simp only [hiff]
  · intro hsev _
    rw [content_level_eq, if_pos hsev]
    exact ⟨rfl, by decide⟩

theorem C2_content_level_spec_witness :
    content_level ["Drugs", "Profanity"] = content_level ["Profanity", "Drugs"] ∧
    content_level ["Racist", "Profanity"] = "severe" ∧
    content_level ["Racist", "Profanity"] ≠ "mild" := by
  have hperm : ∀ t : String, t ∈ ["Drugs", "Profanity"] ↔ t ∈ ["Profanity", "Drugs"] := by
    intro t
    simp only [List.mem_cons, List.not_mem_nil, or_false]
    tauto
  have h2 := (C2_content_level_spec ["Racist", "Profanity"]).2.2 (by decide) (by decide)
  exact ⟨(C2_content_level_spec ["Drugs", "Profanity"]).2.1 _ hperm, h2.1, h2.2⟩

/-- C3: a text with zero matched categories — empty and whitespace-only
texts among them — gets level "basic", and the output row built for a
retained such text is the text, the level "basic" and ten empty tag cells. -/
theorem C3_no_tags_basic :
    (∀ text : String, (text = "" ∨ pyStrip text = "") → check_tags text = []) ∧
    (∀ text : String, check_tags text = [] →
      content_level (check_tags text) = "basic" ∧
      ∀ rest : List String, process_row (text :: rest) =
        if text = "" then none
        else some (text :: "basic" :: List.replicate 10 "")) := by
  constructor
  · intro text h
    unfold check_tags
    rw [if_pos h]
  · intro text h
    refine ⟨by rw [h]; decide, ?_⟩
    intro rest
    have hrow : process_row (text :: rest) =
        if text = "" then none
        else some ([text, content_level (check_tags text)] ++
          ((check_tags text ++ List.replicate (10 - (check_tags text).length) "").take 10)) := rfl
    rw [hrow, h]
    by_cases htext : text = ""
    · rw [if_pos htext, if_pos htext]
    · rw [if_neg htext, if_neg htext]
      simp [content_level]

theorem C3_no_tags_basic_witness :
    check_tags "   " = [] ∧
    content_level (check_tags "I love my dog") = "basic" ∧
    process_row ["I love my dog"] = some ("I love my dog" :: "basic" :: List.replicate 10 "") := by
  have h1 := C3_no_tags_basic.1 "   " (by decide)
  have h2 := C3_no_tags_basic.2 "I love my dog" (by decide)
  have h3 := h2.2 []
  rw [if_neg (by decide : ¬(("I love my dog" : String) = ""))] at h3
  exact ⟨h1, h2.1, h3⟩

/-- C4 counterexample: the claim says each category carries an exclusion
check, but two of the six categories — Sexist and Profanity — carry no
exclusion pattern at all. -/
theorem C4_counterexample :
    categoryExclude Category.sexist = none ∧ categoryExclude Category.profanity = none :=
  ⟨rfl, rfl⟩

/-- C4 (amended): the four categories that carry an exclusion pattern
(Sexually Explicit, Racist, Violence, Drugs) are suppressed on every text
matching that pattern: the category is absent from the output tags even
when one of its trigger phrases is present; Sexist and Profanity carry no
exclusion check. -/
theorem C4_exclusion_suppresses (c : Category) (pats : List (List PTok)) (text : String)
    (hexc : categoryExclude c = some pats) (hmatch : reSearch pats text = true) :
    categoryName c ∉ check_tags text := by
  intro hmem
  have hok : excludeOk c text = false := by
    unfold excludeOk
    rw [hexc]
    show (!reSearch pats text) = false
    rw [hmatch]
    rfl
  have hseg := ((mem_check_tags text c).mp hmem).2
  unfold tagSegment at hseg
  rw [hok] at hseg
  simp at hseg

theorem C4_exclusion_suppresses_witness :
    "Racist" ∉ check_tags "A Tribe Called Quest album" :=
  C4_exclusion_suppresses Category.racist RACIST_EXCLUDE "A Tribe Called Quest album"
    rfl (by decide)

/-- C5: a data row that is empty, or whose first cell is empty or absent, is
skipped: it maps to no output row, and deleting it from the input leaves the
output table unchanged (it is no error — the transformation is total). -/
theorem C5_blank_rows_dropped (row : List String) (h : row = [] ∨ row.headD "" = "") :
    process_row row = none ∧
    ∀ (header : List String) (pre post : List (List String)),
      process_rows (header :: (pre ++ row :: post)) = process_rows (header :: (pre ++ post)) := by
  have hnone : process_row row = none := by
    rcases h with rfl | hfirst
    · rfl
    · cases row with
      | nil => rfl
      | cons cell rest =>
        simp only [List.headD_cons] at hfirst
        simp [process_row, hfirst]
  refine ⟨hnone, ?_⟩
  intro header pre post
  simp [process_rows, List.filterMap_append, List.filterMap_cons, hnone]

theorem C5_blank_rows_dropped_witness :
    process_row [""] = none ∧
    process_rows [["Card text"], [""], ["I love my dog"]] =
      process_rows [["Card text"], ["I love my dog"]] := by
  have h := C5_blank_rows_dropped [""] (Or.inr rfl)
  exact ⟨h.1, h.2 ["Card text"] [] [["I love my dog"]]⟩

/-- C6: trigger matching is case-insensitive (it depends only on the
lowercased text) and whole-word/whole-phrase: a match is exactly an
occurrence of the keyword's characters — the literal spaces of a multi-word
phrase included, hence contiguous — delimited by a word boundary on each
side; so a trigger inside a longer word never matches, while any casing of
a whole word does. -/
theorem C6_matching_wholeword_caseless :
    (∀ word t₁ t₂ : String, lowerChars t₁ = lowerChars t₂ →
      searchWord word t₁ = searchWord word t₂) ∧
    (∀ word text : String, searchWord word text = true ↔
      ∃ pre post, lowerChars text = pre ++ lowerChars word ++ post ∧
        leftBoundary pre.getLast? = true ∧ rightBoundary post = true) ∧
    searchWord "ass" "Nice ASS" = true ∧
    searchWord "ass" "a classy assassin" = false ∧
    searchWord "blow job" "A BLOW JOB tonight" = true ∧
    searchWord "blow job" "blowjob job" = false := by
  refine ⟨?_, searchWord_iff, by decide, by decide, by decide, by decide⟩
  intro word t₁ t₂ h
  unfold searchWord
  rw [h]

theorem C6_matching_wholeword_caseless_witness :
    searchWord "ass" "ASS!" = searchWord "ass" "ass!" ∧
    searchWord "ass" "Nice ASS" = true :=
  ⟨C6_matching_wholeword_caseless.1 "ass" "ASS!" "ass!" (by decide),
   C6_matching_wholeword_caseless.2.2.1⟩

/-- C7: for every text the matched tag sequence is a subsequence of the
fixed priority order Sexually Explicit, Sexist, Racist, Profanity,
Violence, Drugs — the matched names appear in that order, wherever the
trigger phrases occur in the text. -/
theorem C7_tags_in_priority_order (text : String) :
    (check_tags text).Sublist TAG_PRIORITY :=
  check_tags_sublist text

/-- C8 counterexample: with a two-column input header the rewritten header
row has 3 cells, not 12 — so not every row of the output table has exactly
12 cells. -/
theorem C8_counterexample :
    ¬ ∀ row ∈ process_rows [["Card text", "Foo"], ["I love my dog"]], row.length = 12 := by
  decide

/-- C8 (amended): every data row of the output has exactly 12 cells — text,
level and ten tag cells, tags beyond ten truncated; but the header row has
`2 + min (n-1) 10` cells for an `n`-column input header with `n ≥ 2` (its
columns 1..11 are copied as tag-column names, truncated to ten, with no
blank padding), and 12 cells only when `n ≤ 1` or `n ≥ 11`. -/
theorem C8_row_shape :
    (∀ (rows : List (List String)) (row : List String),
      row ∈ (process_rows rows).drop 1 → row.length = 12) ∧
    (∀ header : List String, (process_header header).length =
      if header.length ≤ 1 then 12 else 2 + min (header.length - 1) 10) := by
  constructor
  · intro rows row hmem
    match rows with
    | [] => simp [process_rows] at hmem
    | header :: rest =>
      simp only [process_rows, List.drop_succ_cons, List.drop_zero] at hmem
      obtain ⟨r, -, hr⟩ := List.mem_filterMap.mp hmem
      match r with
      | [] => simp [process_row] at hr
      | cell :: rcells =>
        by_cases hc : cell = ""
        · simp [process_row, hc] at hr
        · simp only [process_row, if_neg hc, Option.some.injEq] at hr
          subst hr
          have hL : ((check_tags cell ++
              List.replicate (10 - (check_tags cell).length) "").take 10).length = 10 := by
            rw [List.length_take, List.length_append, List.length_replicate]
            omega
          rw [List.length_append, hL]
          rfl
  · intro header
    by_cases hlen : header.length ≤ 1
    · have h1 : ¬ 1 < header.length := by omega
      simp [process_header, h1, hlen]
    · have h1 : 1 < header.length := by omega
      simp only [process_header, if_pos h1, if_neg hlen, List.length_append,
        List.length_take, List.length_drop, List.length_cons, List.length_nil]
      omega

theorem C8_row_shape_witness :
    (["Nice ASS.", "severe", "Sexually Explicit", "Profanity",
      "", "", "", "", "", "", "", ""] : List String).length = 12 :=
  C8_row_shape.1 [["Card text"], ["Nice ASS."]]
    ["Nice ASS.", "severe", "Sexually Explicit", "Profanity",
     "", "", "", "", "", "", "", ""] (by decide)

/-- C9: the matched tag list never holds duplicates, draws only on the six
fixed names, and has length at most 6 — so the ten-tag column budget is
never exceeded and the `[:10]` truncation never discards a tag. -/
theorem C9_tags_bounded (text : String) :
    (check_tags text).Nodup ∧
    (∀ t ∈ check_tags text, t ∈ TAG_PRIORITY) ∧
    (check_tags text).length ≤ 6 ∧
    (check_tags text ++ List.replicate (10 - (check_tags text).length) "").take 10 =
      check_tags text ++ List.replicate (10 - (check_tags text).length) "" := by
  have hsub := check_tags_sublist text
  have hlen : (check_tags text).length ≤ 6 := by
    have h6 := hsub.length_le
    simpa [TAG_PRIORITY] using h6
  refine ⟨List.Nodup.sublist hsub (by decide), fun t ht => List.Sublist.mem ht hsub, hlen, ?_⟩
  apply List.take_of_length_le
  simp only [List.length_append, List.length_replicate]
  omega

theorem C9_tags_bounded_witness :
    ("Sexually Explicit" : String) ∈ TAG_PRIORITY :=
  (C9_tags_bounded "Nice ASS.").2.1 "Sexually Explicit" (by decide)

/-- C10: "ass" stands in both the Sexually Explicit and the Profanity
keyword lists, so every text containing "ass" as a whole word and not
matching the Sexually Explicit exclusion pattern receives both tags and is
assigned level "severe", not "mild". -/
theorem C10_ass_both_tags_severe (text : String)
    (h1 : searchWord "ass" text = true)
    (h2 : reSearch SEXUALLY_EXPLICIT_EXCLUDE text = false) :
    "Sexually Explicit" ∈ check_tags text ∧ "Profanity" ∈ check_tags text ∧
    content_level (check_tags text) = "severe" ∧ content_level (check_tags text) ≠ "mild" := by
  have hblank : ¬(text = "" ∨ pyStrip text = "") := by
    obtain ⟨pre, post, heq, -, -⟩ := (searchWord_iff "ass" text).mp h1
    have ha : 'a' ∈ lowerChars text := by
      rw [heq]
      have hmem : 'a' ∈ lowerChars "ass" := by decide
      simp only [List.mem_append]
      tauto
    exact not_blank_of_mem_lower text 'a' ha (by decide)
  have hhitSE : keywordHit SEXUALLY_EXPLICIT_KEYWORDS text = true := by
    unfold keywordHit
    exact List.any_eq_true.mpr ⟨"ass", by decide, h1⟩
  have hhitProf : keywordHit PROFANITY_KEYWORDS text = true := by
    unfold keywordHit
    exact List.any_eq_true.mpr ⟨"ass", by decide, h1⟩
  have hsegSE : tagSegment Category.sexuallyExplicit text = ["Sexually Explicit"] := by
    have hok : excludeOk Category.sexuallyExplicit text = true := by
      show (!reSearch SEXUALLY_EXPLICIT_EXCLUDE text) = true
      rw [h2]
      rfl
    unfold tagSegment
    rw [show categoryKeywords Category.sexuallyExplicit = SEXUALLY_EXPLICIT_KEYWORDS from rfl,
      hok, hhitSE]
    rfl
  have hsegProf : tagSegment Category.profanity text = ["Profanity"] := by
    have hok : excludeOk Category.profanity text = true := rfl
    unfold tagSegment
    rw [show categoryKeywords Category.profanity = PROFANITY_KEYWORDS from rfl, hok, hhitProf]
    rfl
  have hmemSE : "Sexually Explicit" ∈ check_tags text :=
    (mem_check_tags text Category.sexuallyExplicit).mpr ⟨hblank, hsegSE⟩
  have hmemProf : "Profanity" ∈ check_tags text :=
    (mem_check_tags text Category.profanity).mpr ⟨hblank, hsegProf⟩
  have hsev := content_level_eq (check_tags text)
  rw [if_pos (Or.inl hmemSE)] at hsev
  exact ⟨hmemSE, hmemProf, hsev, by rw [hsev]; decide⟩

theorem C10_ass_both_tags_severe_witness :
    "Sexually Explicit" ∈ check_tags "Nice ass, dude" ∧
    "Profanity" ∈ check_tags "Nice ass, dude" ∧
    content_level (check_tags "Nice ass, dude") = "severe" ∧
    content_level (check_tags "Nice ass, dude") ≠ "mild" :=
  C10_ass_both_tags_severe "Nice ass, dude" (by decide) (by decide)

end CAH
